import Mathlib

/-!
Verification development for the HumanAlignment repository.

The numerical core (src/main_eval.py) scores human odd-one-out triplet
judgments against model feature matrices.  Feature vectors are embedded as
lists of real numbers (the idealized real-arithmetic semantics of the float
code), Python errors are embedded as an explicit error type carried by
Except, and the per-triplet loop of get_predictions is embedded as a
structural recursion over the triplet list.
-/

/-- Python runtime errors relevant to the scoring pipeline.  The original
code raises ZeroDivisionError (integer/float division by zero) and
IndexError (sequence index out of range); InvalidInput and missingKey are
included so that statements about error kinds the spec postulates can be
expressed. -/
inductive PyError
  | zeroDivision
  | indexError
  | invalidInput
  | missingKey
deriving DecidableEq

/-- Dot product of two feature vectors, as in torch: elementwise product,
then sum (zipWith truncates to the common length, as broadcasting never
occurs for the equal-length rows used here). -/
def dot (u v : List ℝ) : ℝ := (List.zipWith (fun a b => a * b) u v).sum

/-- Euclidean norm of a feature vector. -/
noncomputable def norm2 (u : List ℝ) : ℝ := Real.sqrt (dot u u)

/-- F.cosine_similarity(x, y, dim=0): dot product over the product of the
norms.  The float code guards a zero denominator with a small epsilon; the
idealized real embedding uses the division-by-zero-is-zero convention of ℝ,
which likewise sends degenerate (zero-vector) pairs to similarity 0. -/
noncomputable def cosine_similarity (u v : List ℝ) : ℝ :=
  dot u v / (norm2 u * norm2 v)

/-- The fixed pair order of get_predictions: pairs = [(0, 1), (0, 2), (1, 2)]. -/
def pairs : List (ℕ × ℕ) := [(0, 1), (0, 2), (1, 2)]

/-- compute_similarities(triplet, pairs): the list of cosine similarities of
the indexed rows of the stacked triplet, one per pair, in pair order. -/
noncomputable def compute_similarities (triplet : List (List ℝ)) (prs : List (ℕ × ℕ)) : List ℝ :=
  prs.map (fun p => cosine_similarity (triplet.getD p.1 []) (triplet.getD p.2 []))

/-- torch.argmax on a one-dimensional tensor: the index of the first maximal
value (per the PyTorch documentation, ties resolve to the first maximal
index).  Embedded as a left fold that replaces the running best index only
on a strictly greater value. -/
def argmaxAux [LinearOrder α] : List α → ℕ → ℕ → α → ℕ
  | [], _, best, _ => best
  | x :: xs, idx, best, bestVal =>
    if bestVal < x then argmaxAux xs (idx + 1) idx x
    else argmaxAux xs (idx + 1) best bestVal

/-- torch.argmax(l).item() for a nonempty list; 0 on the empty list (torch
raises there, but the scorer only applies it to length-3 lists). -/
def argmax [LinearOrder α] : List α → ℕ
  | [] => 0
  | x :: xs => argmaxAux xs 1 0 x

/-- The set literal indices = {0, 1, 2} of get_predictions. -/
def indices : Finset ℕ := {0, 1, 2}

/-- Python set.pop() as used on the singleton set indices.difference(pair):
it returns the unique element; embedded as the minimum of a nonempty finite
set (0 on the empty set, unreachable here). -/
def set_diff_pop (s : Finset ℕ) : ℕ :=
  if h : s.Nonempty then s.min' h else 0

/-- pairs[torch.argmax(similarities).item()]. -/
noncomputable def most_sim_pair (similarities : List ℝ) : ℕ × ℕ :=
  pairs.getD (argmax similarities) (0, 0)

/-- indices.difference(most_sim_pair).pop(): the predicted odd-one-out
position within the triplet. -/
noncomputable def ooo_index (similarities : List ℝ) : ℕ :=
  set_diff_pop (indices \ {(most_sim_pair similarities).1, (most_sim_pair similarities).2})

/-- F.softmax(l, dim=0). -/
noncomputable def softmax (l : List ℝ) : List ℝ :=
  l.map (fun x => Real.exp x / (l.map Real.exp).sum)

/-- Python sequence indexing features[i]: IndexError when the index is out
of range. -/
def pyListGet (l : List α) (i : ℕ) : Except PyError α :=
  if h : i < l.length then Except.ok (l.get ⟨i, h⟩) else Except.error PyError.indexError

/-- torch.stack([features[i], features[j], features[k]]) for one triplet,
with the three feature-matrix lookups in source order. -/
def stack_triplet (features : List (List ℝ)) (t : ℕ × ℕ × ℕ) :
    Except PyError (List (List ℝ)) :=
  match pyListGet features t.1 with
  | Except.error e => Except.error e
  | Except.ok fi =>
    match pyListGet features t.2.1 with
    | Except.error e => Except.error e
    | Except.ok fj =>
      match pyListGet features t.2.2 with
      | Except.error e => Except.error e
      | Except.ok fk => Except.ok [fi, fj, fk]

/-- The in-bounds rows of one triplet, [features[i], features[j], features[k]],
written with default-valued indexing for statement purposes. -/
def triplet_rows (features : List (List ℝ)) (t : ℕ × ℕ × ℕ) : List (List ℝ) :=
  [features.getD t.1 [], features.getD t.2.1 [], features.getD t.2.2 []]

/-- The loop body of get_predictions for one triplet: stack the rows,
compute the pair similarities, predict the odd-one-out as the position
outside the most similar pair, record correctness against ground-truth
position 2, and record the softmax confidences. -/
noncomputable def score_triplet (features : List (List ℝ)) (t : ℕ × ℕ × ℕ) :
    Except PyError (Bool × List ℝ) :=
  match stack_triplet features t with
  | Except.error e => Except.error e
  | Except.ok triplet =>
    let similarities := compute_similarities triplet pairs
    Except.ok (ooo_index similarities == 2, softmax similarities)

/-- The for-loop of get_predictions over the triplet list, in order; the
first Python exception aborts the loop. -/
noncomputable def score_triplets (features : List (List ℝ)) :
    List (ℕ × ℕ × ℕ) → Except PyError (List (Bool × List ℝ))
  | [] => Except.ok []
  | t :: ts =>
    match score_triplet features t with
    | Except.error e => Except.error e
    | Except.ok r =>
      match score_triplets features ts with
      | Except.error e => Except.error e
      | Except.ok rs => Except.ok (r :: rs)

/-- get_predictions(features, triplets): the choices list (one Bool per
triplet) and the probas matrix (one softmax row per triplet). -/
noncomputable def get_predictions (features : List (List ℝ)) (triplets : List (ℕ × ℕ × ℕ)) :
    Except PyError (List Bool × List (List ℝ)) :=
  match score_triplets features triplets with
  | Except.error e => Except.error e
  | Except.ok scored => Except.ok (scored.map Prod.fst, scored.map Prod.snd)

/-- Python division: ZeroDivisionError on a zero denominator. -/
def py_div (a b : ℚ) : Except PyError ℚ :=
  if b = 0 then Except.error PyError.zeroDivision else Except.ok (a / b)

/-- Python round-half-to-even of a rational to an integer. -/
def round_half_even (x : ℚ) : ℤ :=
  let n : ℤ := Int.floor x
  let r : ℚ := x - n
  if r < 1 / 2 then n
  else if 1 / 2 < r then n + 1
  else if n % 2 = 0 then n else n + 1

/-- round(x, 4): rounding to four decimal places. -/
def round4 (x : ℚ) : ℚ := (round_half_even (x * 10000) : ℚ) / 10000

/-- accuracy(choices) = round(sum(choices) / len(choices), 4); sum over
booleans counts the true entries, and the division raises on an empty
list. -/
def accuracy (choices : List Bool) : Except PyError ℚ :=
  match py_div (choices.countP id : ℚ) (choices.length : ℚ) with
  | Except.error e => Except.error e
  | Except.ok m => Except.ok (round4 m)

/-- The inner entropy of ventropy: -(torch.where(p > 0.0, p * log p, 0)).sum(). -/
noncomputable def entropy (p : List ℝ) : ℝ :=
  -(p.map (fun x => if 0 < x then x * Real.log x else 0)).sum

/-- ventropy = vmap(entropy): one entropy per confidence row. -/
noncomputable def ventropy (probabilities : List (List ℝ)) : List ℝ :=
  probabilities.map entropy

/-- A triplet references the feature matrix within bounds. -/
def triplet_in_bounds (features : List (List ℝ)) (t : ℕ × ℕ × ℕ) : Prop :=
  t.1 < features.length ∧ t.2.1 < features.length ∧ t.2.2 < features.length

/-- Whether a pipeline step succeeded. -/
def is_ok : Except PyError α → Bool
  | Except.ok _ => true
  | Except.error _ => false

/-- The similarity-function choices of the --distance flag in
src/main_layer_eval.py parseargs. -/
inductive Distance
  | cosine
  | euclidean
deriving DecidableEq

/-- The choices list of the --distance flag in src/main_layer_eval.py. -/
def distance_choices : List String := ["cosine", "euclidean"]

/-- The default of the --distance flag in src/main_layer_eval.py. -/
def distance_default : String := "cosine"

/-- Mapping of the --distance string values onto the similarity choice. -/
def parse_distance (s : String) : Option Distance :=
  if s = "cosine" then some Distance.cosine
  else if s = "euclidean" then some Distance.euclidean
  else none

/-- Modelled from the spec: the Euclidean distance alternative of the
configurable similarity function of utils.evaluation.get_predictions, whose
implementation is not under src (only its caller in src/main_layer_eval.py
is). -/
noncomputable def euclidean_distance (u v : List ℝ) : ℝ :=
  Real.sqrt (List.zipWith (fun a b => (a - b) ^ 2) u v).sum

/-- Modelled from the spec: the configurable pairwise similarity function of
utils.evaluation.get_predictions (not under src).  Cosine similarity is used
for "cosine"; for "euclidean" the sign of the distance is inverted so that
lower distance counts as higher similarity. -/
noncomputable def sim_fn : Distance → List ℝ → List ℝ → ℝ
  | Distance.cosine => cosine_similarity
  | Distance.euclidean => fun u v => -(euclidean_distance u v)

/-- Modelled from the spec: the pair-similarity list of the configurable
scorer of utils.evaluation (not under src), in the same fixed pair order as
compute_similarities of src/main_eval.py. -/
noncomputable def compute_similarities_d (dist : Distance) (triplet : List (List ℝ))
    (prs : List (ℕ × ℕ)) : List ℝ :=
  prs.map (fun p => sim_fn dist (triplet.getD p.1 []) (triplet.getD p.2 []))

/-- One model of the RSA batch evaluation of src/main_model_sim_eval.py:
its name, its extracted features, and the results of the two nested
dictionary lookups of the transform-application path, where none embeds a
KeyError of transforms[source][model][module] respectively
things_features[source][model][module]. -/
structure SimModel (Feat T E : Type) where
  name : String
  features : Feat
  transform : Option T
  thingsEmb : Option E

/-- The warning emitted when the transformation-matrix lookup fails. -/
def warn_missing_transform (name : String) : String :=
  "Could not find transformation matrix for " ++ name

/-- The warning emitted when the THINGS embedding-matrix lookup fails. -/
def warn_missing_embedding (name : String) : String :=
  "Could not find embedding matrix of " ++ name ++ " for the THINGS dataset"

/-- The per-model body of the evaluate loop of src/main_model_sim_eval.py,
restricted to the transform-application control flow: under use_transforms,
a failed transform lookup or a failed THINGS embedding lookup warns and
skips the model (no summary); otherwise the transformed features are scored
and a summary record for the model is produced. -/
def process_sim_model (Feat T E S : Type) (applyT : Feat → T → E → Feat)
    (rsa : Feat → S) (useTransforms : Bool) (m : SimModel Feat T E) :
    Option (String × S) × List String :=
  if useTransforms then
    match m.transform with
    | none => (none, [warn_missing_transform m.name])
    | some t =>
      match m.thingsEmb with
      | none => (none, [warn_missing_embedding m.name])
      | some e => (some (m.name, rsa (applyT m.features t e)), [])
  else (some (m.name, rsa m.features), [])

/-- The evaluate loop of src/main_model_sim_eval.py over the model list:
summaries of processed models are appended in order, skipped models
contribute only their warning. -/
def sim_eval_loop (Feat T E S : Type) (applyT : Feat → T → E → Feat)
    (rsa : Feat → S) (useTransforms : Bool) :
    List (SimModel Feat T E) → List (String × S) × List String
  | [] => ([], [])
  | m :: rest =>
    let step := process_sim_model Feat T E S applyT rsa useTransforms m
    let acc := sim_eval_loop Feat T E S applyT rsa useTransforms rest
    (step.1.toList ++ acc.1, step.2 ++ acc.2)

/-- The concrete feature matrix of the worked example of the spec. -/
noncomputable def example_features : List (List ℝ) := [[1, 0], [1, 0], [0, 1]]

/-- The scoring contract of get_predictions for one in-bounds triplet: the
loop body returns correctness decided against ground-truth position 2
together with the softmax confidences; the similarity list is the cosine
similarity of the three pairs of positions in the fixed order
[(0, 1), (0, 2), (1, 2)]; the selected pair is one of those three and
carries the maximal similarity; and the predicted odd-one-out position is
the unique position of the triplet outside the selected pair. -/
def scorer_spec (features : List (List ℝ)) (t : ℕ × ℕ × ℕ) : Prop :=
  score_triplet features t =
      Except.ok (ooo_index (compute_similarities (triplet_rows features t) pairs) == 2,
        softmax (compute_similarities (triplet_rows features t) pairs))
  ∧ compute_similarities (triplet_rows features t) pairs =
      [cosine_similarity (features.getD t.1 []) (features.getD t.2.1 []),
       cosine_similarity (features.getD t.1 []) (features.getD t.2.2 []),
       cosine_similarity (features.getD t.2.1 []) (features.getD t.2.2 [])]
  ∧ most_sim_pair (compute_similarities (triplet_rows features t) pairs) ∈ pairs
  ∧ (∀ x ∈ compute_similarities (triplet_rows features t) pairs,
       x ≤ (compute_similarities (triplet_rows features t) pairs).getD
             (argmax (compute_similarities (triplet_rows features t) pairs)) 0)
  ∧ indices \ {(most_sim_pair (compute_similarities (triplet_rows features t) pairs)).1,
               (most_sim_pair (compute_similarities (triplet_rows features t) pairs)).2}
      = {ooo_index (compute_similarities (triplet_rows features t) pairs)}

/-- The first-maximum convention of torch.argmax on the length-3 similarity
lists of the scorer: every position strictly before the returned index holds
a strictly smaller value. -/
def argmax_first_max_spec : Prop :=
  ∀ a b c : ℝ, ∀ m : ℕ, m < argmax [a, b, c] →
    [a, b, c].getD m 0 < [a, b, c].getD (argmax [a, b, c]) 0

/-- The tie-breaking outcome of the scorer on a fully tied triplet: the
selected pair is (0, 1), the first pair in the fixed order, hence the
predicted odd-one-out is position 2 and correctness is recorded as true. -/
def tie_break_spec (features : List (List ℝ)) (t : ℕ × ℕ × ℕ) : Prop :=
  most_sim_pair (compute_similarities (triplet_rows features t) pairs) = (0, 1)
  ∧ ooo_index (compute_similarities (triplet_rows features t) pairs) = 2
  ∧ score_triplet features t =
      Except.ok (true, softmax (compute_similarities (triplet_rows features t) pairs))

theorem argmax_three_eq (a b c : ℝ) :
    argmax [a, b, c] =
      if a < b then (if b < c then 2 else 1) else (if a < c then 2 else 0) := by
  simp [argmax, argmaxAux]

theorem argmax_three_lt (a b c : ℝ) : argmax [a, b, c] < 3 := by
  rw [argmax_three_eq]
  split_ifs <;> norm_num

theorem argmax_three_max (a b c : ℝ) :
    ∀ x ∈ [a, b, c], x ≤ [a, b, c].getD (argmax [a, b, c]) 0 := by
  intro x hx
  rw [argmax_three_eq]
  simp only [List.mem_cons, List.not_mem_nil, or_false] at hx
  split_ifs with h1 h2 h3 <;> simp only [List.getD] <;>
    rcases hx with rfl | rfl | rfl <;> simp <;> linarith

theorem argmax_three_first (a b c : ℝ) (m : ℕ) (hm : m < argmax [a, b, c]) :
    [a, b, c].getD m 0 < [a, b, c].getD (argmax [a, b, c]) 0 := by
  rw [argmax_three_eq] at hm ⊢
  split_ifs at hm ⊢ with h1 h2 h3
  · interval_cases m <;> simp <;> linarith
  · interval_cases m <;> simp <;> linarith
  · interval_cases m <;> simp <;> linarith
  · omega

theorem argmax_three_of_tail_le (a b c : ℝ) (hb : b ≤ a) (hc : c ≤ a) :
    argmax [a, b, c] = 0 := by
  rw [argmax_three_eq, if_neg (not_lt.mpr hb), if_neg (not_lt.mpr hc)]

theorem stack_triplet_ok (features : List (List ℝ)) (t : ℕ × ℕ × ℕ)
    (h : triplet_in_bounds features t) :
    stack_triplet features t = Except.ok (triplet_rows features t) := by
  obtain ⟨h1, h2, h3⟩ := h
  simp [stack_triplet, pyListGet, h1, h2, h3, triplet_rows, List.getD_eq_getElem?_getD,
    List.getElem?_eq_getElem]

theorem stack_triplet_err (features : List (List ℝ)) (t : ℕ × ℕ × ℕ)
    (h : ¬ triplet_in_bounds features t) :
    stack_triplet features t = Except.error PyError.indexError := by
  simp only [triplet_in_bounds, not_and_or, not_lt] at h
  by_cases h1 : t.1 < features.length
  · by_cases h2 : t.2.1 < features.length
    · have h3 : ¬ t.2.2 < features.length := by
        rcases h with h | h | h <;> first | omega | exact not_lt.mpr h
      simp [stack_triplet, pyListGet, h1, h2, h3]
    · simp [stack_triplet, pyListGet, h1, h2]
  · simp [stack_triplet, pyListGet, h1]

theorem score_triplet_ok (features : List (List ℝ)) (t : ℕ × ℕ × ℕ)
    (h : triplet_in_bounds features t) :
    score_triplet features t =
      Except.ok (ooo_index (compute_similarities (triplet_rows features t) pairs) == 2,
        softmax (compute_similarities (triplet_rows features t) pairs)) := by
  simp [score_triplet, stack_triplet_ok features t h]

theorem score_triplet_err (features : List (List ℝ)) (t : ℕ × ℕ × ℕ)
    (h : ¬ triplet_in_bounds features t) :
    score_triplet features t = Except.error PyError.indexError := by
  simp [score_triplet, stack_triplet_err features t h]

theorem dot_self_nonneg (u : List ℝ) : 0 ≤ dot u u := by
  induction u with
  | nil => simp [dot]
  | cons a u ih =>
    have : dot (a :: u) (a :: u) = a * a + dot u u := by simp [dot]
    nlinarith

theorem dot_sq_le (u v : List ℝ) : dot u v ^ 2 ≤ dot u u * dot v v := by
  induction u generalizing v with
  | nil => simp [dot]
  | cons a u ih =>
    cases v with
    | nil => simp [dot]
    | cons b v =>
      have h1 : dot (a :: u) (b :: v) = a * b + dot u v := by simp [dot]
      have h2 : dot (a :: u) (a :: u) = a * a + dot u u := by simp [dot]
      have h3 : dot (b :: v) (b :: v) = b * b + dot v v := by simp [dot]
      have hs := ih v
      have hA := dot_self_nonneg u
      have hB := dot_self_nonneg v
      rw [h1, h2, h3]
      rcases eq_or_lt_of_le hB with hB0 | hBpos
      · have hs0 : dot u v = 0 := by nlinarith
        rw [hs0, ← hB0]
        nlinarith [mul_nonneg hA (sq_nonneg b)]
      · nlinarith [sq_nonneg (a * dot v v - b * dot u v),
          mul_nonneg (sq_nonneg b) (sub_nonneg.mpr hs),
          mul_nonneg (le_of_lt hBpos) (sub_nonneg.mpr hs)]

theorem cosine_self_of_pos (u : List ℝ) (h : 0 < dot u u) :
    cosine_similarity u u = 1 := by
  have hn : norm2 u * norm2 u = dot u u := Real.mul_self_sqrt (le_of_lt h)
  rw [cosine_similarity, hn, div_self (ne_of_gt h)]

theorem norm2_eq_zero (u : List ℝ) (h : dot u u = 0) : norm2 u = 0 := by
  simp only [norm2, h, Real.sqrt_zero]

theorem cosine_le_one (u v : List ℝ) : cosine_similarity u v ≤ 1 := by
  rcases eq_or_lt_of_le (dot_self_nonneg u) with hu | hu
  · rw [cosine_similarity, norm2_eq_zero u hu.symm, zero_mul, div_zero]
    norm_num
  · rcases eq_or_lt_of_le (dot_self_nonneg v) with hv | hv
    · rw [cosine_similarity, norm2_eq_zero v hv.symm, mul_zero, div_zero]
      norm_num
    · have hnu : 0 < norm2 u := Real.sqrt_pos.mpr hu
      have hnv : 0 < norm2 v := Real.sqrt_pos.mpr hv
      rw [cosine_similarity, div_le_one (by positivity)]
      have hmul : norm2 u * norm2 v = Real.sqrt (dot u u * dot v v) := by
        simp only [norm2]
        exact (Real.sqrt_mul (le_of_lt hu) _).symm
      rcases le_or_lt (dot u v) 0 with hd | hd
      · calc dot u v ≤ 0 := hd
          _ ≤ norm2 u * norm2 v := by positivity
      · rw [hmul]
        exact (Real.le_sqrt (le_of_lt hd) (by positivity)).mpr (dot_sq_le u v)

theorem cosine_zero_left (u v : List ℝ) (h : dot u u = 0) :
    cosine_similarity u v = 0 := by
  rw [cosine_similarity, norm2_eq_zero u h, zero_mul, div_zero]

theorem compute_similarities_rows (features : List (List ℝ)) (t : ℕ × ℕ × ℕ) :
    compute_similarities (triplet_rows features t) pairs =
      [cosine_similarity (features.getD t.1 []) (features.getD t.2.1 []),
       cosine_similarity (features.getD t.1 []) (features.getD t.2.2 []),
       cosine_similarity (features.getD t.2.1 []) (features.getD t.2.2 [])] := by
  simp [compute_similarities, pairs, triplet_rows]

theorem ooo_index_pair01 (s : List ℝ) (h : most_sim_pair s = (0, 1)) :
    ooo_index s = 2 := by
  rw [ooo_index, h]
  decide

theorem ooo_index_pair02 (s : List ℝ) (h : most_sim_pair s = (0, 2)) :
    ooo_index s = 1 := by
  rw [ooo_index, h]
  decide

theorem ooo_index_pair12 (s : List ℝ) (h : most_sim_pair s = (1, 2)) :
    ooo_index s = 0 := by
  rw [ooo_index, h]
  decide

theorem most_sim_pair_of_argmax_zero (s : List ℝ) (h : argmax s = 0) :
    most_sim_pair s = (0, 1) := by
  rw [most_sim_pair, h]
  rfl

theorem score_triplets_all_ok (features : List (List ℝ)) (ts : List (ℕ × ℕ × ℕ))
    (h : ∀ t ∈ ts, triplet_in_bounds features t) :
    ∃ rs, score_triplets features ts = Except.ok rs := by
  induction ts with
  | nil => exact ⟨[], rfl⟩
  | cons t ts ih =>
    obtain ⟨rs, hrs⟩ := ih (fun t' ht' => h t' (List.mem_cons_of_mem t ht'))
    refine ⟨(ooo_index (compute_similarities (triplet_rows features t) pairs) == 2,
        softmax (compute_similarities (triplet_rows features t) pairs)) :: rs, ?_⟩
    simp [score_triplets, score_triplet_ok features t (h t (List.mem_cons_self t ts)), hrs]

theorem score_triplets_oob (features : List (List ℝ)) (ts : List (ℕ × ℕ × ℕ))
    (h : ∃ t ∈ ts, ¬ triplet_in_bounds features t) :
    score_triplets features ts = Except.error PyError.indexError := by
  induction ts with
  | nil => simp at h
  | cons t ts ih =>
    by_cases hb : triplet_in_bounds features t
    · have h' : ∃ t' ∈ ts, ¬ triplet_in_bounds features t' := by
        obtain ⟨t', ht', hnb⟩ := h
        rcases List.mem_cons.mp ht' with rfl | hmem
        · exact absurd hb hnb
        · exact ⟨t', hmem, hnb⟩
      rw [score_triplets, score_triplet_ok features t hb, ih h']
    · rw [score_triplets, score_triplet_err features t hb]

theorem example_dot_same : dot [(1:ℝ), 0] [1, 0] = 1 := by
  norm_num [dot]

theorem example_dot_diff : dot [(1:ℝ), 0] [0, 1] = 0 := by
  norm_num [dot]

theorem example_cos_same : cosine_similarity [(1:ℝ), 0] [1, 0] = 1 := by
  rw [cosine_similarity, example_dot_same, norm2, example_dot_same, Real.sqrt_one]
  norm_num

theorem example_cos_diff : cosine_similarity [(1:ℝ), 0] [0, 1] = 0 := by
  rw [cosine_similarity, example_dot_diff, zero_div]

theorem example_sims :
    compute_similarities [[(1:ℝ), 0], [1, 0], [0, 1]] pairs = [1, 0, 0] := by
  simp only [compute_similarities, pairs, List.map_cons, List.map_nil, List.getD]
  norm_num [example_cos_same, example_cos_diff]

theorem example_argmax : argmax [(1:ℝ), 0, 0] = 0 := by
  rw [argmax_three_eq]
  norm_num

theorem softmax_example :
    softmax [(1:ℝ), 0, 0] =
      [Real.exp 1 / (Real.exp 1 + 2), 1 / (Real.exp 1 + 2), 1 / (Real.exp 1 + 2)] := by
  have hsum : ([(1:ℝ), 0, 0].map Real.exp).sum = Real.exp 1 + 2 := by
    simp [Real.exp_zero]
    ring
  simp only [softmax, List.map_cons, List.map_nil, hsum]
  norm_num [Real.exp_zero]

theorem one_sub_inv_le_log (x : ℝ) (hx : 0 < x) : 1 - 1 / x ≤ Real.log x := by
  have h := Real.log_le_sub_one_of_pos (show (0:ℝ) < x⁻¹ by positivity)
  rw [Real.log_inv] at h
  have hinv : x⁻¹ = 1 / x := (one_div x).symm
  linarith [h, hinv ▸ h]

theorem log_exp_one_add_two_bounds :
    (1.5512:ℝ) < Real.log (Real.exp 1 + 2) ∧ Real.log (Real.exp 1 + 2) < 1.5517 := by
  have ha : (2.7182818283:ℝ) < Real.exp 1 := Real.exp_one_gt_d9
  have hb : Real.exp 1 < 2.7182818286 := Real.exp_one_lt_d9
  have hE : (0:ℝ) < Real.exp 1 := Real.exp_pos 1
  have hE2 : (0:ℝ) < Real.exp 1 + 2 := by linarith
  have hl2a : (0.6931471803:ℝ) < Real.log 2 := Real.log_two_gt_d9
  have hl2b : Real.log 2 < 0.6931471808 := Real.log_two_lt_d9
  have hE5 : (0:ℝ) < Real.exp 1 ^ 5 := by positivity
  have hrpos : (0:ℝ) < 32 * (Real.exp 1 + 2) / Real.exp 1 ^ 5 := by positivity
  have hid : Real.log (32 * (Real.exp 1 + 2) / Real.exp 1 ^ 5)
      = 5 * Real.log 2 + Real.log (Real.exp 1 + 2) - 5 := by
    rw [Real.log_div (by positivity) (ne_of_gt hE5),
      Real.log_mul (by norm_num) (ne_of_gt hE2), Real.log_pow, Real.log_exp,
      (by norm_num : (32:ℝ) = 2 ^ 5), Real.log_pow]
    push_cast
    ring
  have hEub : Real.exp 1 ^ 5 < (2.7182818286:ℝ) ^ 5 := by
    gcongr
  have hElb : (2.7182818283:ℝ) ^ 5 < Real.exp 1 ^ 5 := by
    gcongr
  have hrl : (1.01732:ℝ) < 32 * (Real.exp 1 + 2) / Real.exp 1 ^ 5 := by
    rw [lt_div_iff hE5]
    nlinarith [hEub, ha]
  have hru : 32 * (Real.exp 1 + 2) / Real.exp 1 ^ 5 < (1.017331:ℝ) := by
    rw [div_lt_iff hE5]
    nlinarith [hElb, hb]
  have hlrl : (1:ℝ) - 1 / 1.01732 < Real.log (32 * (Real.exp 1 + 2) / Real.exp 1 ^ 5) := by
    have h1 := one_sub_inv_le_log (32 * (Real.exp 1 + 2) / Real.exp 1 ^ 5) hrpos
    have h2 : 1 / (32 * (Real.exp 1 + 2) / Real.exp 1 ^ 5) < 1 / (1.01732:ℝ) :=
      one_div_lt_one_div_of_lt (by norm_num) hrl
    linarith
  have hlru : Real.log (32 * (Real.exp 1 + 2) / Real.exp 1 ^ 5) < 0.017331 := by
    have h1 := Real.log_le_sub_one_of_pos hrpos
    linarith
  constructor
  · have hnum : (1:ℝ) - 1 / 1.01732 - 5 * 0.6931471808 + 5 > 1.5512 := by norm_num
    nlinarith [hlrl, hid, hl2b]
  · have hnum : (0.017331:ℝ) - 5 * 0.6931471803 + 5 < 1.5517 := by norm_num
    nlinarith [hlru, hid, hl2a]

theorem entropy_term_eq (x : ℝ) (hx : 0 ≤ x) :
    (if 0 < x then x * Real.log x else 0) = x * Real.log x := by
  rcases eq_or_lt_of_le hx with h0 | hpos
  · rw [if_neg (by rw [← h0]; exact lt_irrefl 0), ← h0, zero_mul]
  · rw [if_pos hpos]

theorem entropy_term_upper (x : ℝ) (hx : 0 ≤ x) :
    -(if 0 < x then x * Real.log x else 0) ≤ 1 / 3 - x + x * Real.log 3 := by
  rcases eq_or_lt_of_le hx with h0 | hpos
  · rw [if_neg (by rw [← h0]; exact lt_irrefl 0)]
    rw [← h0]
    norm_num
  · rw [if_pos hpos]
    have h3x : (0:ℝ) < 3 * x := by linarith
    have hlog := Real.log_le_sub_one_of_pos (show (0:ℝ) < (3 * x)⁻¹ by positivity)
    rw [Real.log_inv, Real.log_mul (by norm_num) (ne_of_gt hpos)] at hlog
    have hmul := mul_le_mul_of_nonneg_left hlog (le_of_lt hpos)
    have hxinv : x * (3 * x)⁻¹ = 1 / 3 := by
      field_simp
      ring
    nlinarith [hmul, hxinv]

theorem entropy_term_nonneg (x : ℝ) (hx : 0 ≤ x) (hx1 : x ≤ 1) :
    0 ≤ -(if 0 < x then x * Real.log x else 0) := by
  rcases eq_or_lt_of_le hx with h0 | hpos
  · rw [if_neg (by rw [← h0]; exact lt_irrefl 0)]
    norm_num
  · rw [if_pos hpos]
    have := Real.log_nonpos (le_of_lt hpos) hx1
    nlinarith

theorem entropy_three (a b c : ℝ) :
    entropy [a, b, c] =
      -((if 0 < a then a * Real.log a else 0) + (if 0 < b then b * Real.log b else 0)
        + (if 0 < c then c * Real.log c else 0)) := by
  simp [entropy]
  ring

theorem entropy_softmax_example :
    entropy (softmax [(1:ℝ), 0, 0]) =
      Real.log (Real.exp 1 + 2) - Real.exp 1 / (Real.exp 1 + 2) := by
  have hE : (0:ℝ) < Real.exp 1 := Real.exp_pos 1
  have hE2 : (0:ℝ) < Real.exp 1 + 2 := by linarith
  have hp1 : (0:ℝ) < Real.exp 1 / (Real.exp 1 + 2) := by positivity
  have hp2 : (0:ℝ) < 1 / (Real.exp 1 + 2) := by positivity
  have hl1 : Real.log (Real.exp 1 / (Real.exp 1 + 2)) = 1 - Real.log (Real.exp 1 + 2) := by
    rw [Real.log_div (ne_of_gt hE) (ne_of_gt hE2), Real.log_exp]
  have hl2 : Real.log (1 / (Real.exp 1 + 2)) = -Real.log (Real.exp 1 + 2) := by
    rw [one_div, Real.log_inv]
  rw [softmax_example, entropy_three, if_pos hp1, if_pos hp2, hl1, hl2]
  field_simp
  ring

theorem most_sim_pair_cases (a b c : ℝ) :
    most_sim_pair [a, b, c] = (0, 1) ∨ most_sim_pair [a, b, c] = (0, 2)
      ∨ most_sim_pair [a, b, c] = (1, 2) := by
  have h3 := argmax_three_lt a b c
  have h : argmax [a, b, c] = 0 ∨ argmax [a, b, c] = 1 ∨ argmax [a, b, c] = 2 := by omega
  rcases h with h | h | h <;> rw [most_sim_pair, h] <;> simp [pairs]

theorem most_sim_pair_mem (a b c : ℝ) : most_sim_pair [a, b, c] ∈ pairs := by
  rcases most_sim_pair_cases a b c with h | h | h <;> rw [h] <;> simp [pairs]

theorem ooo_index_singleton (a b c : ℝ) :
    indices \ {(most_sim_pair [a, b, c]).1, (most_sim_pair [a, b, c]).2}
      = {ooo_index [a, b, c]} := by
  rcases most_sim_pair_cases a b c with h | h | h
  · rw [ooo_index_pair01 _ h, h]
    decide
  · rw [ooo_index_pair02 _ h, h]
    decide
  · rw [ooo_index_pair12 _ h, h]
    decide

/-- Claim C1: for every feature matrix and every triplet of indices into it,
the triplet scorer computes the cosine similarities of the three pairs of
positions (0, 1), (0, 2), (1, 2) within the triplet, takes a pair of maximal
similarity among the three, predicts as odd-one-out the unique position not
in that pair, and records correctness as true exactly when the predicted
position equals index position 2 of the triplet. -/
theorem triplet_scorer_correctness (features : List (List ℝ)) (t : ℕ × ℕ × ℕ)
    (h : triplet_in_bounds features t) : scorer_spec features t := by
  have hrows := compute_similarities_rows features t
  refine ⟨score_triplet_ok features t h, hrows, ?_, ?_, ?_⟩
  · rw [hrows]
    exact most_sim_pair_mem _ _ _
  · rw [hrows]
    exact argmax_three_max _ _ _
  · rw [hrows]
    exact ooo_index_singleton _ _ _

/-- Witness for C1 at a concrete feature matrix and triplet. -/
theorem triplet_scorer_correctness_witness :
    triplet_in_bounds [[(2:ℝ)], [3], [5]] (0, 1, 2)
      ∧ scorer_spec [[(2:ℝ)], [3], [5]] (0, 1, 2) := by
  have hb : triplet_in_bounds [[(2:ℝ)], [3], [5]] (0, 1, 2) := by
    norm_num [triplet_in_bounds]
  exact ⟨hb, triplet_scorer_correctness _ _ hb⟩

/-- Claim C2 (counterexample): on the empty triplet list the pipeline does
not raise an InvalidInput error; get_predictions returns empty results and
accuracy raises a division-by-zero error. -/
theorem empty_triplets_counterexample :
    accuracy [] = Except.error PyError.zeroDivision
    ∧ accuracy [] ≠ Except.error PyError.invalidInput
    ∧ get_predictions [] [] = Except.ok ([], []) := by
  have h0 : accuracy [] = Except.error PyError.zeroDivision := rfl
  refine ⟨h0, ?_, rfl⟩
  rw [h0]
  simp

/-- Claim C2 (amended): when the scorer is run on a triplet list of length 0,
get_predictions succeeds with empty outputs and the subsequent accuracy
computation fails with a raw division-by-zero error; no InvalidInput guard
exists. -/
theorem empty_triplets_division_by_zero (features : List (List ℝ)) :
    get_predictions features [] = Except.ok ([], [])
    ∧ accuracy [] = Except.error PyError.zeroDivision :=
  ⟨rfl, rfl⟩

/-- Claim C3 (counterexample): a triplet with non-distinct indices (0, 0, 1)
into a 2-row feature matrix is scored without any error, so no eager
InvalidInput validation of distinctness exists. -/
theorem nondistinct_triplet_counterexample :
    get_predictions [[(1:ℝ), 0], [0, 1]] [(0, 0, 1)]
      = Except.ok ([true], [softmax [(1:ℝ), 0, 0]]) := by
  have hb : triplet_in_bounds [[(1:ℝ), 0], [0, 1]] (0, 0, 1) := by
    norm_num [triplet_in_bounds]
  have hrows : triplet_rows [[(1:ℝ), 0], [0, 1]] (0, 0, 1)
      = [[(1:ℝ), 0], [1, 0], [0, 1]] := by
    simp [triplet_rows]
  have hsc := score_triplet_ok _ _ hb
  rw [hrows, example_sims,
    ooo_index_pair01 _ (most_sim_pair_of_argmax_zero _ example_argmax)] at hsc
  simp [get_predictions, score_triplets, hsc]

/-- Claim C3 (amended): the scorer performs no eager validation: every
triplet list whose indices are in bounds is scored without error even when
triplet indices are not pairwise distinct, an out-of-bounds index surfaces
as an IndexError raised by feature-matrix indexing during the scoring loop,
and an InvalidInput error is never produced. -/
theorem no_eager_validation (features : List (List ℝ)) (ts : List (ℕ × ℕ × ℕ)) :
    ((∀ t ∈ ts, triplet_in_bounds features t) → is_ok (get_predictions features ts) = true)
    ∧ ((∃ t ∈ ts, ¬ triplet_in_bounds features t) →
        get_predictions features ts = Except.error PyError.indexError)
    ∧ get_predictions features ts ≠ Except.error PyError.invalidInput := by
  refine ⟨?_, ?_, ?_⟩
  · intro h
    obtain ⟨rs, hrs⟩ := score_triplets_all_ok features ts h
    simp [get_predictions, hrs, is_ok]
  · intro h
    simp [get_predictions, score_triplets_oob features ts h]
  · by_cases h : ∀ t ∈ ts, triplet_in_bounds features t
    · obtain ⟨rs, hrs⟩ := score_triplets_all_ok features ts h
      simp [get_predictions, hrs]
    · push_neg at h
      simp [get_predictions, score_triplets_oob features ts h]

/-- Witness for C3 at concrete inputs: a non-distinct in-bounds triplet is
scored successfully, and an out-of-bounds triplet yields an IndexError. -/
theorem no_eager_validation_witness :
    is_ok (get_predictions [[(1:ℝ)], [2]] [(0, 0, 1)]) = true
    ∧ get_predictions [[(1:ℝ)], [2]] [(5, 0, 1)] = Except.error PyError.indexError :=
  ⟨(no_eager_validation _ _).1 (by
      intro t ht
      rw [List.mem_singleton] at ht
      subst ht
      norm_num [triplet_in_bounds]),
   (no_eager_validation _ _).2.1 ⟨(5, 0, 1), by simp, by simp [triplet_in_bounds]⟩⟩

/-- Claim C4: the pairwise similarity function of the layer-evaluation
scorer is configurable with cosine similarity as the default and Euclidean
distance as the supported alternative, whose ranking is inverted by sign so
that a strictly lower distance is a strictly higher similarity.  The flag
default and choices are those of src/main_layer_eval.py; the similarity
function itself is modelled from the spec since utils.evaluation is not
under src. -/
theorem configurable_similarity (u v u2 v2 : List ℝ) :
    distance_default = "cosine"
    ∧ parse_distance distance_default = some Distance.cosine
    ∧ "euclidean" ∈ distance_choices
    ∧ sim_fn Distance.cosine u v = cosine_similarity u v
    ∧ (∀ triplet prs, compute_similarities_d Distance.cosine triplet prs
        = compute_similarities triplet prs)
    ∧ (euclidean_distance u v < euclidean_distance u2 v2
        ↔ sim_fn Distance.euclidean u2 v2 < sim_fn Distance.euclidean u v) := by
  refine ⟨rfl, rfl, by simp [distance_choices], rfl, fun triplet prs => rfl, ?_⟩
  simp only [sim_fn]
  exact (neg_lt_neg_iff).symm

/-- Claim C5: for every three nonnegative confidences summing to one, the
entropy of ventropy equals the negated sum of p times log p under the
convention that a zero confidence contributes zero, is invariant under every
permutation of the three slots, and lies between 0 and log 3. -/
theorem ventropy_spec (a b c : ℝ) (ha : 0 ≤ a) (hb : 0 ≤ b) (hc : 0 ≤ c)
    (hsum : a + b + c = 1) :
    entropy [a, b, c] = -(a * Real.log a + b * Real.log b + c * Real.log c)
    ∧ entropy [a, b, c] = entropy [a, c, b]
    ∧ entropy [a, b, c] = entropy [b, a, c]
    ∧ entropy [a, b, c] = entropy [b, c, a]
    ∧ entropy [a, b, c] = entropy [c, a, b]
    ∧ entropy [a, b, c] = entropy [c, b, a]
    ∧ 0 ≤ entropy [a, b, c]
    ∧ entropy [a, b, c] ≤ Real.log 3
    ∧ ventropy [[a, b, c]] = [entropy [a, b, c]] := by
  have ha1 : a ≤ 1 := by linarith
  have hb1 : b ≤ 1 := by linarith
  have hc1 : c ≤ 1 := by linarith
  refine ⟨?_, ?_, ?_, ?_, ?_, ?_, ?_, ?_, rfl⟩
  · rw [entropy_three, entropy_term_eq a ha, entropy_term_eq b hb, entropy_term_eq c hc]
  · rw [entropy_three, entropy_three]
    ring
  · rw [entropy_three, entropy_three]
    ring
  · rw [entropy_three, entropy_three]
    ring
  · rw [entropy_three, entropy_three]
    ring
  · rw [entropy_three, entropy_three]
    ring
  · rw [entropy_three]
    have h1 := entropy_term_nonneg a ha ha1
    have h2 := entropy_term_nonneg b hb hb1
    have h3 := entropy_term_nonneg c hc hc1
    linarith
  · rw [entropy_three]
    have h1 := entropy_term_upper a ha
    have h2 := entropy_term_upper b hb
    have h3 := entropy_term_upper c hc
    have hL3 : a * Real.log 3 + b * Real.log 3 + c * Real.log 3 = Real.log 3 := by
      rw [← add_mul, ← add_mul, hsum, one_mul]
    linarith

/-- Witness for C5 at the concrete confidence vector (1, 0, 0). -/
theorem ventropy_spec_witness :
    (0:ℝ) ≤ 1 ∧ (1:ℝ) + 0 + 0 = 1
    ∧ 0 ≤ entropy [(1:ℝ), 0, 0] ∧ entropy [(1:ℝ), 0, 0] ≤ Real.log 3 := by
  have h := ventropy_spec 1 0 0 (by norm_num) (by norm_num) (by norm_num) (by norm_num)
  exact ⟨by norm_num, by norm_num, h.2.2.2.2.2.2.1, h.2.2.2.2.2.2.2.1⟩

/-- Claim C6: on the feature matrix [[1,0],[1,0],[0,1]] with the single
triplet (0, 1, 2), the scorer produces pairwise cosine similarities
(1, 0, 0), selects pair (0, 1) as most similar, predicts position 2 as the
odd-one-out with correctness true, and yields softmax confidences within
0.001 of (0.576, 0.212, 0.212) and entropy within 0.001 of 0.976. -/
theorem example_evaluation :
    compute_similarities (triplet_rows example_features (0, 1, 2)) pairs = [1, 0, 0]
    ∧ most_sim_pair [(1:ℝ), 0, 0] = (0, 1)
    ∧ ooo_index [(1:ℝ), 0, 0] = 2
    ∧ get_predictions example_features [(0, 1, 2)]
        = Except.ok ([true], [softmax [(1:ℝ), 0, 0]])
    ∧ |(softmax [(1:ℝ), 0, 0]).getD 0 0 - 0.576| < 0.001
    ∧ |(softmax [(1:ℝ), 0, 0]).getD 1 0 - 0.212| < 0.001
    ∧ |(softmax [(1:ℝ), 0, 0]).getD 2 0 - 0.212| < 0.001
    ∧ |entropy (softmax [(1:ℝ), 0, 0]) - 0.976| < 0.001 := by
  have ha : (2.7182818283:ℝ) < Real.exp 1 := Real.exp_one_gt_d9
  have hb : Real.exp 1 < 2.7182818286 := Real.exp_one_lt_d9
  have hE2 : (0:ℝ) < Real.exp 1 + 2 := by positivity
  have hp1l : (0.57611:ℝ) < Real.exp 1 / (Real.exp 1 + 2) := by
    rw [lt_div_iff hE2]
    linarith
  have hp1u : Real.exp 1 / (Real.exp 1 + 2) < 0.57612 := by
    rw [div_lt_iff hE2]
    linarith
  have hp2l : (0.21194:ℝ) < 1 / (Real.exp 1 + 2) := by
    rw [lt_div_iff hE2]
    linarith
  have hp2u : (1:ℝ) / (Real.exp 1 + 2) < 0.21195 := by
    rw [div_lt_iff hE2]
    linarith
  obtain ⟨hLl, hLu⟩ := log_exp_one_add_two_bounds
  have hrows : triplet_rows example_features (0, 1, 2) = [[(1:ℝ), 0], [1, 0], [0, 1]] := by
    simp [triplet_rows, example_features]
  have hm : most_sim_pair [(1:ℝ), 0, 0] = (0, 1) :=
    most_sim_pair_of_argmax_zero _ example_argmax
  have ho : ooo_index [(1:ℝ), 0, 0] = 2 := ooo_index_pair01 _ hm
  have hb3 : triplet_in_bounds example_features (0, 1, 2) := by
    norm_num [triplet_in_bounds, example_features]
  have hsc := score_triplet_ok _ _ hb3
  rw [hrows, example_sims, ho] at hsc
  refine ⟨by rw [hrows]; exact example_sims, hm, ho, ?_, ?_, ?_, ?_, ?_⟩
  · simp [get_predictions, score_triplets, hsc]
  · rw [softmax_example]
    simp only [List.getD_cons_zero]
    rw [abs_lt]
    constructor <;> linarith
  · rw [softmax_example]
    simp only [List.getD_cons_succ, List.getD_cons_zero]
    rw [abs_lt]
    constructor <;> linarith
  · rw [softmax_example]
    simp only [List.getD_cons_succ, List.getD_cons_zero]
    rw [abs_lt]
    constructor <;> linarith
  · rw [entropy_softmax_example, abs_lt]
    constructor <;> linarith

/-- Claim C7: for every triplet whose first two feature vectors are
identical and differ from the third, the predicted odd-one-out is the third
position, so correctness (prediction equals index position 2, the position
holding k) is recorded as true. -/
theorem identical_pair_prediction (features : List (List ℝ)) (i j k : ℕ)
    (hi : i < features.length) (hj : j < features.length) (hk : k < features.length)
    (heq : features.getD i [] = features.getD j [])
    (hne : features.getD i [] ≠ features.getD k []) :
    ooo_index (compute_similarities (triplet_rows features (i, j, k)) pairs) = 2
    ∧ score_triplet features (i, j, k) =
        Except.ok (true,
          softmax (compute_similarities (triplet_rows features (i, j, k)) pairs)) := by
  have hbnd : triplet_in_bounds features (i, j, k) := ⟨hi, hj, hk⟩
  have hrows := compute_similarities_rows features (i, j, k)
  dsimp only at hrows
  rw [← heq] at hrows
  have hle : cosine_similarity (features.getD i []) (features.getD k [])
      ≤ cosine_similarity (features.getD i []) (features.getD i []) := by
    rcases eq_or_lt_of_le (dot_self_nonneg (features.getD i [])) with h0 | hpos
    · rw [cosine_zero_left _ _ h0.symm, cosine_zero_left _ _ h0.symm]
    · rw [cosine_self_of_pos _ hpos]
      exact cosine_le_one _ _
  have hargmax : argmax (compute_similarities (triplet_rows features (i, j, k)) pairs) = 0 := by
    rw [hrows]
    exact argmax_three_of_tail_le _ _ _ hle hle
  have ho := ooo_index_pair01 _ (most_sim_pair_of_argmax_zero _ hargmax)
  refine ⟨ho, ?_⟩
  have hsc := score_triplet_ok features (i, j, k) hbnd
  rw [ho] at hsc
  simpa using hsc

/-- Witness for C7 at a concrete feature matrix with an identical leading
pair. -/
theorem identical_pair_prediction_witness :
    ([[(1:ℝ), 0], [1, 0], [0, 1]].getD 0 [] = [[(1:ℝ), 0], [1, 0], [0, 1]].getD 1 [])
    ∧ ([[(1:ℝ), 0], [1, 0], [0, 1]].getD 0 [] ≠ [[(1:ℝ), 0], [1, 0], [0, 1]].getD 2 [])
    ∧ ooo_index (compute_similarities
        (triplet_rows [[(1:ℝ), 0], [1, 0], [0, 1]] (0, 1, 2)) pairs) = 2 := by
  refine ⟨by norm_num, by norm_num, ?_⟩
  exact (identical_pair_prediction [[(1:ℝ), 0], [1, 0], [0, 1]] 0 1 2 (by norm_num)
    (by norm_num) (by norm_num) (by norm_num) (by norm_num)).1

/-- Claim C8: for every non-empty correctness vector, accuracy is the mean
of the vector rounded to four decimal places, and in particular it is
exactly 1 when every entry is true and exactly 0 when every entry is
false. -/
theorem accuracy_spec (choices : List Bool) (h : choices ≠ []) :
    accuracy choices = Except.ok (round4 ((choices.countP id : ℚ) / (choices.length : ℚ)))
    ∧ ((∀ x ∈ choices, x = true) → accuracy choices = Except.ok 1)
    ∧ ((∀ x ∈ choices, x = false) → accuracy choices = Except.ok 0) := by
  have hlen0 : choices.length ≠ 0 := fun hl => h (List.length_eq_zero.mp hl)
  have hlen : (choices.length : ℚ) ≠ 0 := Nat.cast_ne_zero.mpr hlen0
  have hacc : accuracy choices
      = Except.ok (round4 ((choices.countP id : ℚ) / (choices.length : ℚ))) := by
    simp [accuracy, py_div, hlen]
  refine ⟨hacc, ?_, ?_⟩
  · intro hall
    have hcnt : choices.countP id = choices.length := by
      rw [List.countP_eq_length]
      intro a ha
      simp [hall a ha]
    rw [hacc, hcnt, div_self hlen]
    norm_num [round4, round_half_even]
  · intro hall
    have hcnt : choices.countP id = 0 := by
      rw [List.countP_eq_zero]
      intro a ha
      simp [hall a ha]
    rw [hacc, hcnt]
    norm_num [round4, round_half_even]

/-- Witness for C8 at the concrete all-correct vector [true]. -/
theorem accuracy_spec_witness :
    (([true] : List Bool) ≠ []) ∧ accuracy [true] = Except.ok 1 := by
  refine ⟨by simp, ?_⟩
  exact (accuracy_spec [true] (by simp)).2.1 (by simp)

/-- Claim C9: in the transform-application path of the RSA evaluation, a
model whose transformation-matrix lookup or THINGS embedding-matrix lookup
fails by a missing key is skipped: the result list is exactly that of the
remaining models (no record appended, no hard failure) and exactly one
warning is added. -/
theorem rsa_missing_key_skips (Feat T E S : Type) (applyT : Feat → T → E → Feat)
    (rsa : Feat → S) (m : SimModel Feat T E) (rest : List (SimModel Feat T E))
    (h : m.transform = none ∨ m.thingsEmb = none) :
    (sim_eval_loop Feat T E S applyT rsa true (m :: rest)).1
      = (sim_eval_loop Feat T E S applyT rsa true rest).1
    ∧ (sim_eval_loop Feat T E S applyT rsa true (m :: rest)).2.length
      = (sim_eval_loop Feat T E S applyT rsa true rest).2.length + 1 := by
  rcases h with h | h
  · constructor <;> simp [sim_eval_loop, process_sim_model, h]
  · cases htr : m.transform with
    | none => constructor <;> simp [sim_eval_loop, process_sim_model, htr]
    | some tm => constructor <;> simp [sim_eval_loop, process_sim_model, htr, h]

/-- Witness for C9 at a concrete model with a missing transformation
matrix. -/
theorem rsa_missing_key_skips_witness :
    ((⟨"alexnet", 0, none, none⟩ : SimModel ℕ ℕ ℕ).transform = none
      ∨ (⟨"alexnet", 0, none, none⟩ : SimModel ℕ ℕ ℕ).thingsEmb = none)
    ∧ (sim_eval_loop ℕ ℕ ℕ ℕ (fun f _ _ => f) (fun f => f) true
        [⟨"alexnet", 0, none, none⟩]).1
      = (sim_eval_loop ℕ ℕ ℕ ℕ (fun f _ _ => f) (fun f => f) true []).1
    ∧ (sim_eval_loop ℕ ℕ ℕ ℕ (fun f _ _ => f) (fun f => f) true
        [⟨"alexnet", 0, none, none⟩]).2.length
      = (sim_eval_loop ℕ ℕ ℕ ℕ (fun f _ _ => f) (fun f => f) true []).2.length + 1 := by
  have h := rsa_missing_key_skips ℕ ℕ ℕ ℕ (fun f _ _ => f) (fun f => f)
    ⟨"alexnet", 0, none, none⟩ [] (Or.inl rfl)
  exact ⟨Or.inl rfl, h.1, h.2⟩

/-- Claim C10: torch.argmax resolves ties to the first maximal index, so on
the length-3 similarity lists of the scorer every earlier position holds a
strictly smaller value; in particular, when all three pairwise similarities
of an in-bounds triplet are equal, the selected pair is (0, 1), the
predicted odd-one-out is position 2, and correctness is recorded as true. -/
theorem argmax_tie_breaking (features : List (List ℝ)) (t : ℕ × ℕ × ℕ)
    (h : triplet_in_bounds features t)
    (h1 : cosine_similarity (features.getD t.1 []) (features.getD t.2.1 [])
        = cosine_similarity (features.getD t.1 []) (features.getD t.2.2 []))
    (h2 : cosine_similarity (features.getD t.1 []) (features.getD t.2.2 [])
        = cosine_similarity (features.getD t.2.1 []) (features.getD t.2.2 [])) :
    argmax_first_max_spec ∧ tie_break_spec features t := by
  constructor
  · intro a b c m hm
    exact argmax_three_first a b c m hm
  · have hrows := compute_similarities_rows features t
    have hargmax : argmax (compute_similarities (triplet_rows features t) pairs) = 0 := by
      rw [hrows]
      exact argmax_three_of_tail_le _ _ _ (le_of_eq h1.symm) (le_of_eq (h1.trans h2).symm)
    have hm := most_sim_pair_of_argmax_zero _ hargmax
    have ho := ooo_index_pair01 _ hm
    refine ⟨hm, ho, ?_⟩
    have hsc := score_triplet_ok features t h
    rw [ho] at hsc
    simpa using hsc

/-- Witness for C10 at a concrete fully tied feature matrix. -/
theorem argmax_tie_breaking_witness :
    triplet_in_bounds [[(1:ℝ)], [1], [1]] (0, 1, 2)
    ∧ argmax_first_max_spec
    ∧ tie_break_spec [[(1:ℝ)], [1], [1]] (0, 1, 2) := by
  have hb : triplet_in_bounds [[(1:ℝ)], [1], [1]] (0, 1, 2) := by
    norm_num [triplet_in_bounds]
  have h := argmax_tie_breaking [[(1:ℝ)], [1], [1]] (0, 1, 2) hb rfl rfl
  exact ⟨hb, h.1, h.2⟩
